import Mathlib

/-!
Verification development for the JobParbreak distribution core
(src/JobParbreak/jobsys.h, jobsys.cpp, main.cpp).

The C++ source is shallowly embedded: Qt containers become Lean lists
(QHash as an association list carrying its iteration order, QQueue as a
list with the front at the head), QUuid becomes a natural number below
2 ^ 128, QString becomes String, and the fallible or asserting paths
become Option results where the value none marks an assertion failure or
an out-of-bounds iterator dereference.  Wall-clock timestamps and socket
handles are not modelled; message sends and log lines appear as explicit
emission lists where a claim needs them.
-/

namespace JobParbreak

/-- JobStatus from jobsys.h line 17. -/
inductive JobStatus where
  | PENDING
  | IN_WORK
  | DONE
  | FAILED
  deriving DecidableEq, Repr, Inhabited

/-- JobAssignment from jobsys.h: the pair sent on the wire. -/
structure JobAssignment where
  id : Nat
  command : String
  deriving DecidableEq, Repr

/-- JobRecord from jobsys.h. -/
structure JobRecord where
  id : Nat
  command : String
  status : JobStatus
  deriving DecidableEq, Repr

/-- MessageAssignment inherits JobAssignment without adding fields. -/
abbrev MessageAssignment := JobAssignment

/-- MessageSuccess from jobsys.h. -/
structure MessageSuccess where
  completed : Nat
  std_out : String
  std_err : String
  deriving DecidableEq, Repr

/-- MessageFailed from jobsys.h. -/
structure MessageFailed where
  failed : Nat
  std_out : String
  std_err : String
  deriving DecidableEq, Repr

/-- MessageType, the std variant over monostate and the three messages. -/
inductive MessageType where
  | empty
  | assignment (m : MessageAssignment)
  | success (m : MessageSuccess)
  | failed (m : MessageFailed)
  deriving DecidableEq, Repr

/-! ### Association-list model of QHash -/

/-- Lookup in the association-list model of a QHash keyed by QUuid. -/
def jlookup : List (Nat × JobRecord) → Nat → Option JobRecord
  | [], _ => none
  | e :: rest, k => if e.1 = k then some e.2 else jlookup rest k

/-- QHash insertion through operator bracket assignment: replace the value
at an existing key, otherwise add a new entry. -/
def qhashInsert : List (Nat × JobRecord) → Nat → JobRecord → List (Nat × JobRecord)
  | [], k, v => [(k, v)]
  | e :: rest, k, v => if e.1 = k then (k, v) :: rest else e :: qhashInsert rest k v

/-- The statement m_jobs[k].status = st: QHash operator bracket
default-constructs a record when the key is absent, then the status field
is assigned. -/
def qhashSetStatus : List (Nat × JobRecord) → Nat → JobStatus → List (Nat × JobRecord)
  | [], k, st => [(k, ⟨0, "", st⟩)]
  | e :: rest, k, st =>
      if e.1 = k then (k, { e.2 with status := st }) :: rest
      else e :: qhashSetStatus rest k st

/-! ### UUID rendering and parsing

QUuid::toString renders the canonical 36-character dashed lowercase hex
form wrapped in braces; the QUuid constructor from QString accepts the
dashed form with or without braces and yields the null uuid on malformed
input.  The uuid value is modelled as a natural number below 2 ^ 128,
printed big-endian in groups of 8-4-4-4-12 hex digits. -/

/-- The opening brace character. -/
def lbraceC : Char := Char.ofNat 123

/-- The closing brace character. -/
def rbraceC : Char := Char.ofNat 125

/-- The dash character. -/
def dashC : Char := '-'

/-- Lowercase hex digit for a nibble. -/
def hexChar (n : Nat) : Char :=
  if n < 10 then Char.ofNat (48 + n) else Char.ofNat (87 + n)

/-- The low k nibbles of n, most significant first. -/
def hexListC : Nat → Nat → List Char
  | 0, _ => []
  | k + 1, n => hexChar (n / 16 ^ k % 16) :: hexListC k n

/-- The 36-character dashed hex form of a uuid value. -/
def uuidDashedChars (n : Nat) : List Char :=
  hexListC 8 (n / 16 ^ 24) ++
    (dashC :: (hexListC 4 (n / 16 ^ 20) ++
      (dashC :: (hexListC 4 (n / 16 ^ 16) ++
        (dashC :: (hexListC 4 (n / 16 ^ 12) ++
          (dashC :: hexListC 12 n)))))))

/-- QUuid::toString: the dashed form wrapped in braces. -/
def uuidToString (n : Nat) : String :=
  String.mk (lbraceC :: uuidDashedChars n ++ [rbraceC])

/-- Value of one hex digit character, accepting both cases. -/
def hexDigitVal (c : Char) : Option Nat :=
  if 48 ≤ c.toNat ∧ c.toNat ≤ 57 then some (c.toNat - 48)
  else if 97 ≤ c.toNat ∧ c.toNat ≤ 102 then some (c.toNat - 87)
  else if 65 ≤ c.toNat ∧ c.toNat ≤ 70 then some (c.toNat - 55)
  else none

/-- Read exactly k hex digits, extending the accumulator. -/
def readHex : Nat → Nat → List Char → Option (Nat × List Char)
  | 0, acc, cs => some (acc, cs)
  | _ + 1, _, [] => none
  | k + 1, acc, c :: cs =>
      match hexDigitVal c with
      | none => none
      | some d => readHex k (acc * 16 + d) cs

/-- Consume one dash. -/
def expectDash : List Char → Option (List Char)
  | c :: rest => if c = dashC then some rest else none
  | [] => none

/-- Parse the 36-character dashed hex form. -/
def parseUuidDashed (cs : List Char) : Option Nat :=
  (readHex 8 0 cs).bind fun p1 =>
  (expectDash p1.2).bind fun cs1 =>
  (readHex 4 p1.1 cs1).bind fun p2 =>
  (expectDash p2.2).bind fun cs2 =>
  (readHex 4 p2.1 cs2).bind fun p3 =>
  (expectDash p3.2).bind fun cs3 =>
  (readHex 4 p3.1 cs3).bind fun p4 =>
  (expectDash p4.2).bind fun cs4 =>
  (readHex 12 p4.1 cs4).bind fun p5 =>
  match p5.2 with
  | [] => some p5.1
  | _ => none

/-- Strip a surrounding brace pair when the first character is an opening
brace, as the QUuid string constructor does. -/
def stripBraces (cs : List Char) : Option (List Char) :=
  match cs with
  | [] => some []
  | c :: rest =>
      if c = lbraceC then
        match rest.getLast? with
        | some c2 => if c2 = rbraceC then some rest.dropLast else none
        | none => none
      else some cs

/-- The QUuid constructor from QString: null uuid on malformed input. -/
def uuidFromString (s : String) : Nat :=
  ((stripBraces s.data).bind parseUuidDashed).getD 0

/-! ### JSON object layer

The repository codec maps messages to QJsonObject trees and back;
QJsonDocument::toJson / fromJson, the byte serializer of the toolkit, is
treated as a faithful inverse pair outside the embedded code. -/

/-- JSON values as the codec uses them: strings and objects. -/
inductive JValue where
  | jstr (s : String)
  | jobj (fields : List (String × JValue))

/-- Fields of a JSON value; empty for a non-object, as
QJsonValue::toObject yields an empty object. -/
def toObjJ : JValue → List (String × JValue)
  | .jobj fields => fields
  | _ => []

/-- QJsonValue::toString: empty string for a non-string. -/
def toStringJ : JValue → String
  | .jstr s => s
  | _ => ""

/-- Key lookup in a JSON object. -/
def jlookupJ : List (String × JValue) → String → Option JValue
  | [], _ => none
  | e :: rest, k => if e.1 = k then some e.2 else jlookupJ rest k

/-- obj[k].toString(): a missing key is undefined and stringifies to the
empty string. -/
def getStrJ (fields : List (String × JValue)) (k : String) : String :=
  match jlookupJ fields k with
  | some v => toStringJ v
  | none => ""

/-- encode_message overload for MessageAssignment, jobsys.cpp lines 69-79. -/
def encode_message_assignment (m : MessageAssignment) : JValue :=
  .jobj [("assignment", .jobj [("id", .jstr (uuidToString m.id)), ("command", .jstr m.command)])]

/-- encode_message overload for MessageSuccess, jobsys.cpp lines 81-92. -/
def encode_message_success (m : MessageSuccess) : JValue :=
  .jobj [("success", .jobj [("id", .jstr (uuidToString m.completed)),
    ("std_out", .jstr m.std_out), ("std_err", .jstr m.std_err)])]

/-- encode_message overload for MessageFailed, jobsys.cpp lines 94-105. -/
def encode_message_failed (m : MessageFailed) : JValue :=
  .jobj [("failed", .jobj [("id", .jstr (uuidToString m.failed)),
    ("std_out", .jstr m.std_out), ("std_err", .jstr m.std_err)])]

/-- decode_message, jobsys.cpp lines 28-66: probe the three top-level keys
in order, fall back to the empty variant. -/
def decode_message (j : JValue) : MessageType :=
  let obj := toObjJ j
  match jlookupJ obj "assignment" with
  | some v =>
      let mobj := toObjJ v
      .assignment ⟨uuidFromString (getStrJ mobj "id"), getStrJ mobj "command"⟩
  | none =>
    match jlookupJ obj "success" with
    | some v =>
        let mobj := toObjJ v
        .success ⟨uuidFromString (getStrJ mobj "id"), getStrJ mobj "std_out", getStrJ mobj "std_err"⟩
    | none =>
      match jlookupJ obj "failed" with
      | some v =>
          let mobj := toObjJ v
          .failed ⟨uuidFromString (getStrJ mobj "id"), getStrJ mobj "std_out", getStrJ mobj "std_err"⟩
      | none => .empty

/-! ### WorkerSession (coordinator side), class Worker in jobsys.cpp -/

/-- Coordinator-side per-connection state: worker id and the optional
current assignment.  The wall-clock start time is not modelled. -/
structure WorkerS where
  wid : Nat
  assignment : Option JobAssignment
  deriving DecidableEq, Repr

/-- Upward emissions of a Worker session.  The elapsed-seconds payload of
the success signal is wall-clock data and is not modelled. -/
inductive WorkerEmit where
  | emitSuccess (m : MessageSuccess)
  | emitFailed (m : MessageFailed)
  | wantWork
  | logProtocol
  deriving DecidableEq, Repr

/-- Worker::on_data, jobsys.cpp lines 312-325, composed with the
visited Worker::on_message overloads at lines 244-258.  The overloads
assert that an assignment is held and that its id matches the message;
the value none models a failing assertion. -/
def worker_on_data (w : WorkerS) (msg : MessageType) : Option (WorkerS × List WorkerEmit) :=
  match msg with
  | .empty => some (w, [])
  | .assignment _ => some (w, [.logProtocol])
  | .success m =>
      match w.assignment with
      | none => none
      | some a =>
          if a.id = m.completed then
            some ({ w with assignment := none }, [.emitSuccess m, .wantWork])
          else none
  | .failed m =>
      match w.assignment with
      | none => none
      | some a =>
          if a.id = m.failed then
            some ({ w with assignment := none }, [.emitFailed m, .wantWork])
          else none

/-- Worker::on_conn_closed, jobsys.cpp lines 293-306: the failure
messages synthesized when the transport disconnects. -/
def worker_on_conn_closed (w : WorkerS) : List MessageFailed :=
  match w.assignment with
  | some a => [⟨a.id, "Connection closed", ""⟩]
  | none => []

/-! ### Coordinator state, class Server in jobsys.h lines 133-179 -/

/-- Coordinator state.  The two final fields are ghost history lists
recording every id ever enqueued into and dequeued from m_pending_jobs;
next_uuid models the QUuid::createUuid supply. -/
structure ServerState where
  jobs : List (Nat × JobRecord)
  pending : List Nat
  failed : List Nat
  workers : List WorkerS
  next_worker_id : Nat
  next_uuid : Nat
  enq_hist : List Nat
  deq_hist : List Nat
  deriving DecidableEq, Repr

/-- The freshly constructed Server. -/
def initServer : ServerState :=
  ⟨[], [], [], [], 0, 0, [], []⟩

/-- Find the session with a given worker id. -/
def findWorker : List WorkerS → Nat → Option WorkerS
  | [], _ => none
  | w :: rest, wid => if w.wid = wid then some w else findWorker rest wid

/-- Replace the session with a given worker id. -/
def replaceWorker : List WorkerS → Nat → WorkerS → List WorkerS
  | [], _, _ => []
  | w :: rest, wid, w2 => if w.wid = wid then w2 :: rest else w :: replaceWorker rest wid w2

/-- Worker::on_new_work_assigned on the session with the given id: store
the assignment.  The outgoing wire message and timestamp are not
modelled here. -/
def setAssignment : List WorkerS → Nat → JobAssignment → List WorkerS
  | [], _, _ => []
  | w :: rest, wid, a =>
      if w.wid = wid then { w with assignment := some a } :: rest
      else w :: setAssignment rest wid a

/-- Server::enqueue, jobsys.cpp lines 373-381: append the ids to the
pending queue (and to the ghost enqueue history). -/
def enqueue (s : ServerState) (ids : List Nat) : ServerState :=
  { s with pending := s.pending ++ ids, enq_hist := s.enq_hist ++ ids }

/-- Server::assign_work_to, jobsys.cpp lines 352-371: no-op when the
session is unknown, the queue is empty or the worker is busy; otherwise
dequeue the front id, mark the record in-work and hand the assignment to
the session.  The assert that the dequeued id is a known job is modelled
by the none result. -/
def assign_work_to (s : ServerState) (wid : Nat) : Option ServerState :=
  match findWorker s.workers wid with
  | none => some s
  | some w =>
    match s.pending with
    | [] => some s
    | next :: rest =>
        if w.assignment.isSome then some s
        else
          match jlookup s.jobs next with
          | none => none
          | some rec =>
              some { s with
                pending := rest,
                jobs := qhashInsert s.jobs next { rec with status := .IN_WORK },
                workers := setAssignment s.workers wid ⟨rec.id, rec.command⟩,
                deq_hist := s.deq_hist ++ [next] }

/-- Server::on_worker_failed, jobsys.cpp lines 707-711. -/
def server_on_worker_failed (s : ServerState) (m : MessageFailed) : ServerState :=
  { s with jobs := qhashSetStatus s.jobs m.failed .FAILED, failed := s.failed ++ [m.failed] }

/-- Server::on_worker_success, jobsys.cpp lines 712-719. -/
def server_on_worker_success (s : ServerState) (m : MessageSuccess) : ServerState :=
  { s with jobs := qhashSetStatus s.jobs m.completed .DONE }

/-- Route one worker emission into the coordinator slots it is wired to. -/
def applyEmit (s : ServerState) (wid : Nat) : WorkerEmit → Option ServerState
  | .emitSuccess m => some (server_on_worker_success s m)
  | .emitFailed m => some (server_on_worker_failed s m)
  | .wantWork => assign_work_to s wid
  | .logProtocol => some s

/-- Route a list of worker emissions in order. -/
def applyEmits (s : ServerState) (wid : Nat) : List WorkerEmit → Option ServerState
  | [] => some s
  | e :: rest =>
      match applyEmit s wid e with
      | none => none
      | some s2 => applyEmits s2 wid rest

/-- Server::add_file, jobsys.cpp lines 611-642: every line read from the
stream becomes a fresh Pending record whose id is enqueued. -/
def add_file (s : ServerState) (lines : List String) : ServerState :=
  lines.foldl
    (fun st line =>
      { st with
        next_uuid := st.next_uuid + 1,
        jobs := qhashInsert st.jobs st.next_uuid ⟨st.next_uuid, line, .PENDING⟩,
        pending := st.pending ++ [st.next_uuid],
        enq_hist := st.enq_hist ++ [st.next_uuid] })
    s

/-- The filtering loop of Server::c_restore, jobsys.cpp lines 452-467,
over the deserialized mapping in iteration order.  On a Pending entry the
source increments the iterator before reading the id to enqueue, so the
id recorded comes from the following entry; when the Pending entry is
last, the source dereferences the end iterator, modelled by none. -/
def restoreFilter : List (Nat × JobRecord) → Option (List (Nat × JobRecord) × List Nat)
  | [] => some ([], [])
  | e :: rest =>
      if e.2.status = JobStatus.PENDING then
        match rest with
        | [] => none
        | e2 :: _ =>
            match restoreFilter rest with
            | none => none
            | some (kept, ids) => some (e :: kept, e2.2.id :: ids)
      else restoreFilter rest

/-- Server::c_restore, jobsys.cpp lines 427-480, applied to the mapping
deserialized from the file (in iteration order): filter, merge the kept
records into m_jobs, enqueue the collected ids. -/
def c_restore (s : ServerState) (entries : List (Nat × JobRecord)) : Option ServerState :=
  match restoreFilter entries with
  | none => none
  | some (kept, to_add) =>
      some (enqueue
        { s with jobs := kept.foldl (fun j e => qhashInsert j e.1 e.2) s.jobs }
        to_add)

/-- Server::c_haltsave, jobsys.cpp lines 389-426.  The booleans model
whether a filename argument was given and whether the file opens for
writing; the result is the console diagnostic, the serialized mapping
written to the file when any was, and the coordinator state after the
command. -/
def c_haltsave (hasFilename canOpen : Bool) (s : ServerState) :
    Option String × Option (List (Nat × JobRecord)) × ServerState :=
  if hasFilename = false then (some "Need a filename", none, s)
  else if s.pending.isEmpty = false then
    (some "Please clear pending jobs and wait for workers to complete.", none, s)
  else if s.jobs.any (fun e => e.2.status == JobStatus.IN_WORK) then
    (some "Please wait for workers to complete.", none, s)
  else if canOpen = false then (some "Unable to open file for writing.", none, s)
  else (none, some s.jobs, s)

/-- Worker::on_conn_closed together with the coordinator slots it fires,
jobsys.cpp lines 293-306, 701-711: synthesize a failure for a held
assignment, then drop the session from m_clients. -/
def on_conn_closed_step (s : ServerState) (wid : Nat) : ServerState :=
  match findWorker s.workers wid with
  | none => s
  | some w =>
      let s1 :=
        match w.assignment with
        | some a => server_on_worker_failed s ⟨a.id, "Connection closed", ""⟩
        | none => s
      { s1 with workers := s1.workers.filter (fun w2 => w2.wid != wid) }

/-- The coordinator events that mutate its state, each an entry point in
jobsys.cpp.  Worker messages arrive already decoded. -/
inductive ServerOp where
  | opConnect
  | opWantWork (wid : Nat)
  | opWorkerMsg (wid : Nat) (msg : MessageType)
  | opConnClosed (wid : Nat)
  | opAddFile (lines : List String)
  | opClearPending
  | opHaltsave (hasFilename canOpen : Bool)
  | opRestore (entries : List (Nat × JobRecord))
  deriving DecidableEq, Repr

/-- One coordinator event; none marks a failing assertion or the
end-iterator dereference in restore. -/
def step (s : ServerState) : ServerOp → Option ServerState
  | .opConnect =>
      assign_work_to
        { s with
          workers := s.workers ++ [⟨s.next_worker_id, none⟩],
          next_worker_id := s.next_worker_id + 1 }
        s.next_worker_id
  | .opWantWork wid => assign_work_to s wid
  | .opWorkerMsg wid msg =>
      match findWorker s.workers wid with
      | none => some s
      | some w =>
          match worker_on_data w msg with
          | none => none
          | some (w2, emits) =>
              applyEmits { s with workers := replaceWorker s.workers wid w2 } wid emits
  | .opConnClosed wid => some (on_conn_closed_step s wid)
  | .opAddFile lines => some (add_file s lines)
  | .opClearPending => some { s with pending := [] }
  | .opHaltsave hf co => some (c_haltsave hf co s).2.2
  | .opRestore entries => c_restore s entries

/-- Run a sequence of coordinator events. -/
def run (s : ServerState) : List ServerOp → Option ServerState
  | [] => some s
  | op :: ops =>
      match step s op with
      | none => none
      | some s2 => run s2 ops

/-! ### Worker agent (client side), class Client in jobsys.cpp -/

/-- Client-side state: the optional in-flight assignment.  The subprocess
handle is not modelled. -/
structure ClientState where
  assignment : Option MessageAssignment
  deriving DecidableEq, Repr

/-- Observable actions of the worker agent. -/
inductive ClientEffect where
  | sendMsg (m : MessageType)
  | spawn (command : String)
  | logCritical
  | fatalExit
  deriving DecidableEq, Repr

/-- Client::on_data, jobsys.cpp lines 832-854, composed with
Client::on_assignment at lines 761-797: an assignment while busy answers
with a failure message; an assignment while idle is recorded and its
command spawned; success and failure messages are logged and ignored;
only the empty decode is fatal. -/
def client_on_data (c : ClientState) (msg : MessageType) : ClientState × List ClientEffect :=
  match msg with
  | .empty => (c, [.logCritical, .fatalExit])
  | .assignment m =>
      match c.assignment with
      | some _ => (c, [.sendMsg (.failed ⟨m.id, "Already have assignment!", ""⟩)])
      | none => (⟨some m⟩, [.spawn m.command])
  | .success _ => (c, [.logCritical])
  | .failed _ => (c, [.logCritical])

/-! ### Invariants of section 3 of the spec -/

/-- Invariant I1: every id in pending refers to a job in the registry
whose status is Pending. -/
def invariantI1 (s : ServerState) : Prop :=
  ∀ id ∈ s.pending, (jlookup s.jobs id).map JobRecord.status = some JobStatus.PENDING

instance (s : ServerState) : Decidable (invariantI1 s) := by
  unfold invariantI1
  infer_instance

/-- One list is an initial segment of another. -/
def isPrefixOfL (l1 l2 : List Nat) : Prop :=
  ∃ t, l1 ++ t = l2

/-! ### Concrete restore inputs exercising the filtering loop -/

/-- A Pending record. -/
def recA : JobRecord := ⟨10, "cmd-a", .PENDING⟩

/-- A Done record. -/
def recB : JobRecord := ⟨11, "cmd-b", .DONE⟩

/-- A deserialized mapping whose iteration order is the Pending record
first, then the Done record. -/
def demoEntries : List (Nat × JobRecord) := [(10, recA), (11, recB)]

/-- The coordinator state after restoring demoEntries into a fresh
coordinator. -/
def restoredDemo : ServerState :=
  (c_restore initServer demoEntries).getD initServer

/-- A coordinator with one in-work job held by worker 0. -/
def c6S : ServerState :=
  ⟨[(7, ⟨7, "cmd", .IN_WORK⟩)], [], [], [⟨0, some ⟨7, "cmd"⟩⟩], 1, 8, [7], [7]⟩

/-- The queue invariant tying the ghost histories together: everything
ever enqueued is what was dequeued followed by what still waits. -/
def pendInv (s : ServerState) : Prop :=
  s.enq_hist = s.deq_hist ++ s.pending

/-- The console trace ingesting one job, clearing the queue, ingesting a
second job, then connecting a worker. -/
def c3ops : List ServerOp :=
  [.opAddFile ["a"], .opClearPending, .opAddFile ["b"], .opConnect]

/-- A clear-free trace: ingest two jobs, connect one worker. -/
def c3wOps : List ServerOp := [.opAddFile ["a", "b"], .opConnect]

/-- The state reached by the clear-free trace. -/
def c3wS : ServerState := (run initServer c3wOps).getD initServer

/-- Claim C1: after restore, the code was meant to append the id of every
retained Pending record to pending; instead, on the mapping with the
Pending record first and a Done record second, the mapping merged into
jobs is exactly the Pending record, yet pending receives the id of the
Done successor entry and never the Pending id; and on a mapping whose
only entry is Pending the loop reads past the end of the container. -/
theorem c1_restore_requeues_successor_ids :
    c_restore initServer [(10, recA)] = none ∧
    (c_restore initServer demoEntries).map ServerState.pending = some [11] ∧
    (c_restore initServer demoEntries).map (fun s => jlookup s.jobs 10) = some (some recA) ∧
    (c_restore initServer demoEntries).map (fun s => jlookup s.jobs 11) = some none := by
  refine ⟨?_, ?_, ?_, ?_⟩ <;> decide

/-- Claim C2: the spec requires invariants I1 to I5 at every quiescent
point; after the restore of demoEntries completes, the id of the
discarded Done record sits in pending with no record in jobs at all, so
I1 fails at a quiescent point. -/
theorem c2_restore_breaks_invariant_I1 :
    c_restore initServer demoEntries = some restoredDemo ∧ ¬ invariantI1 restoredDemo := by
  refine ⟨?_, ?_⟩ <;> decide

/-- Claim C10: in the filtering loop of restore the iterator is
incremented before its value is read, so the id appended comes from the
entry after the Pending one, and on a mapping whose last entry is
Pending the loop dereferences the end iterator, the none branch of the
guarded embedding. -/
theorem c10_restore_iterator_advance :
    (∀ k : Nat, ∀ r : JobRecord, r.status = JobStatus.PENDING →
      restoreFilter [(k, r)] = none) ∧
    (∀ k1 k2 : Nat, ∀ r1 r2 : JobRecord,
      r1.status = JobStatus.PENDING → r2.status ≠ JobStatus.PENDING →
      restoreFilter [(k1, r1), (k2, r2)] = some ([(k1, r1)], [r2.id])) := by
  constructor
  · intro k r h
    simp [restoreFilter, h]
  · intro k1 k2 r1 r2 h1 h2
    simp [restoreFilter, h1, h2]

/-- Witness for C10 at concrete entries. -/
theorem c10_restore_iterator_witness :
    recA.status = JobStatus.PENDING ∧ recB.status ≠ JobStatus.PENDING ∧
    restoreFilter [(10, recA)] = none ∧
    restoreFilter [(10, recA), (11, recB)] = some ([(10, recA)], [recB.id]) :=
  ⟨rfl, by decide, c10_restore_iterator_advance.1 10 recA rfl,
    c10_restore_iterator_advance.2 10 11 recA recB rfl (by decide)⟩

/-- Claim C7: the spec calls for logging and ignoring a success or
failure whose id does not match the current assignment, or one received
with no assignment held; the session instead asserts on both conditions
(Worker::on_message, jobsys.cpp lines 244-258), the none branch of the
embedding: a debug build aborts the coordinator and a build without
assertions clears the assignment and emits the mismatched result upward
rather than leaving the session unchanged. -/
theorem c7_mismatch_not_ignored :
    worker_on_data ⟨0, some ⟨7, "cmd"⟩⟩ (.success ⟨8, "", ""⟩) = none ∧
    worker_on_data ⟨0, some ⟨7, "cmd"⟩⟩ (.failed ⟨8, "", ""⟩) = none ∧
    worker_on_data ⟨0, none⟩ (.success ⟨8, "", ""⟩) = none ∧
    worker_on_data ⟨0, none⟩ (.failed ⟨8, "", ""⟩) = none := by
  refine ⟨?_, ?_, ?_, ?_⟩ <;> decide

/-- Counterexample to claim C9: a success message from the coordinator is
logged and the agent carries on; no fatal exit is produced, contradicting
the claimed termination. -/
theorem c9_success_not_fatal :
    client_on_data ⟨none⟩ (.success ⟨5, "out", "err"⟩) = (⟨none⟩, [.logCritical]) ∧
    ClientEffect.fatalExit ∉ (client_on_data ⟨none⟩ (.success ⟨5, "out", "err"⟩)).2 := by
  constructor <;> decide

/-- Claim C9 amended: a success or failure message from the coordinator
is logged and ignored with the in-flight assignment unchanged; the agent
terminates only when a message decodes to the empty variant. -/
theorem c9_client_logs_and_continues (c : ClientState) (ms : MessageSuccess) (mf : MessageFailed) :
    client_on_data c (.success ms) = (c, [.logCritical]) ∧
    client_on_data c (.failed mf) = (c, [.logCritical]) ∧
    client_on_data c .empty = (c, [.logCritical, .fatalExit]) :=
  ⟨rfl, rfl, rfl⟩

/-! ### Helper lemmas on the QHash model -/

theorem mem_qhashInsert (l : List (Nat × JobRecord)) (k : Nat) (v : JobRecord)
    (e : Nat × JobRecord) : e ∈ qhashInsert l k v → e ∈ l ∨ e = (k, v) := by
  induction l with
  | nil =>
      intro he
      simp only [qhashInsert, List.mem_singleton] at he
      exact Or.inr he
  | cons a rest ih =>
      intro he
      by_cases h : a.1 = k
      · have he2 : e ∈ (k, v) :: rest := by simpa [qhashInsert, h] using he
        rcases List.mem_cons.mp he2 with h3 | h3
        · exact Or.inr h3
        · exact Or.inl (List.mem_cons_of_mem a h3)
      · have he2 : e ∈ a :: qhashInsert rest k v := by simpa [qhashInsert, h] using he
        rcases List.mem_cons.mp he2 with h3 | h3
        · exact Or.inl (by rw [h3]; exact List.mem_cons_self a rest)
        · rcases ih h3 with h4 | h4
          · exact Or.inl (List.mem_cons_of_mem a h4)
          · exact Or.inr h4

theorem jlookup_qhashInsert_self (l : List (Nat × JobRecord)) (k : Nat) (v : JobRecord) :
    jlookup (qhashInsert l k v) k = some v := by
  induction l with
  | nil => simp [qhashInsert, jlookup]
  | cons a rest ih =>
      by_cases h : a.1 = k
      · simp [qhashInsert, h, jlookup]
      · simp [qhashInsert, h, jlookup, ih]

theorem jlookup_qhashInsert_of_ne (l : List (Nat × JobRecord)) (k k2 : Nat) (v : JobRecord)
    (h : k ≠ k2) : jlookup (qhashInsert l k2 v) k = jlookup l k := by
  have h2 : ¬ (k2 = k) := fun h3 => h h3.symm
  induction l with
  | nil => simp [qhashInsert, jlookup, h2]
  | cons a rest ih =>
      by_cases h3 : a.1 = k2
      · simp [qhashInsert, h3, jlookup, h2]
      · simp [qhashInsert, h3, jlookup, ih]

/-- Counterexample to claim C8: ingesting a file consisting of one empty
line creates a record for it with the empty command and enqueues its id,
where the claim says an empty line creates no record and enqueues
nothing. -/
theorem c8_empty_line_creates_job :
    (add_file initServer [""]).pending = [0] ∧
    jlookup (add_file initServer [""]).jobs 0 = some ⟨0, "", JobStatus.PENDING⟩ := by
  constructor <;> decide

/-- Claim C8 amended: batch ingestion creates, for every line of the file
whether empty or not, one JobRecord with a fresh id and status Pending,
inserts it into jobs and appends its id to pending, leaving previously
known jobs untouched. -/
theorem c8_add_file_every_line (s : ServerState) (lines : List String)
    (hfresh : ∀ e ∈ s.jobs, e.1 < s.next_uuid) :
    (add_file s lines).pending = s.pending ++ List.range' s.next_uuid lines.length ∧
    (∀ i, ∀ hi : i < lines.length,
      jlookup (add_file s lines).jobs (s.next_uuid + i) =
        some ⟨s.next_uuid + i, lines.get ⟨i, hi⟩, JobStatus.PENDING⟩) ∧
    (∀ k, k < s.next_uuid → jlookup (add_file s lines).jobs k = jlookup s.jobs k) := by
  obtain ⟨jobs, pend, fl, ws, nw, nu, eh, dh⟩ := s
  dsimp only at hfresh ⊢
  induction lines generalizing jobs pend nu eh with
  | nil => simp [add_file]
  | cons l ls ih =>
      have hfold :
          add_file ⟨jobs, pend, fl, ws, nw, nu, eh, dh⟩ (l :: ls) =
            add_file
              ⟨qhashInsert jobs nu ⟨nu, l, .PENDING⟩, pend ++ [nu], fl, ws, nw,
                nu + 1, eh ++ [nu], dh⟩ ls := rfl
      have hfresh1 :
          ∀ e ∈ qhashInsert jobs nu ⟨nu, l, JobStatus.PENDING⟩, e.1 < nu + 1 := by
        intro e he
        rcases mem_qhashInsert _ _ _ _ he with h | h
        · exact Nat.lt_trans (hfresh e h) (Nat.lt_succ_self _)
        · rw [h]
          exact Nat.lt_succ_self _
      obtain ⟨ih1, ih2, ih3⟩ := ih _ _ _ _ hfresh1
      refine ⟨?_, ?_, ?_⟩
      · rw [hfold, ih1]
        have hr : List.range' nu (ls.length + 1) = nu :: List.range' (nu + 1) ls.length := rfl
        simp [hr, List.append_assoc]
      · intro i hi
        cases i with
        | zero =>
            simp only [Nat.add_zero]
            rw [hfold, ih3 nu (Nat.lt_succ_self _), jlookup_qhashInsert_self]
            rfl
        | succ i2 =>
            have hi2 : i2 < ls.length := by
              simpa [Nat.succ_lt_succ_iff] using hi
            have hkey : nu + (i2 + 1) = nu + 1 + i2 := by omega
            rw [hfold, hkey, ih2 i2 hi2]
            rfl
      · intro k hk
        rw [hfold, ih3 k (Nat.lt_trans hk (Nat.lt_succ_self _)),
          jlookup_qhashInsert_of_ne _ _ _ _ (Nat.ne_of_lt hk)]

/-- Witness for the amended C8 at a concrete two-line file. -/
theorem c8_add_file_witness :
    (∀ e ∈ initServer.jobs, e.1 < initServer.next_uuid) ∧
    ((add_file initServer ["echo a", "echo b"]).pending =
        initServer.pending ++ List.range' initServer.next_uuid 2 ∧
      (∀ i, ∀ hi : i < (["echo a", "echo b"] : List String).length,
        jlookup (add_file initServer ["echo a", "echo b"]).jobs (initServer.next_uuid + i) =
          some ⟨initServer.next_uuid + i, (["echo a", "echo b"] : List String).get ⟨i, hi⟩,
            JobStatus.PENDING⟩) ∧
      (∀ k, k < initServer.next_uuid →
        jlookup (add_file initServer ["echo a", "echo b"]).jobs k = jlookup initServer.jobs k)) :=
  ⟨by simp [initServer],
    c8_add_file_every_line initServer ["echo a", "echo b"] (by simp [initServer])⟩

/-- Claim C5: haltsave is rejected whenever pending is non-empty or some
job is in work; every rejection carries a console diagnostic, writes no
file, and leaves the coordinator state unchanged. -/
theorem c5_haltsave_guard (s : ServerState) (hf co : Bool)
    (h : s.pending ≠ [] ∨ ∃ e ∈ s.jobs, e.2.status = JobStatus.IN_WORK) :
    (c_haltsave hf co s).1.isSome = true ∧
    (c_haltsave hf co s).2.1 = none ∧
    (c_haltsave hf co s).2.2 = s := by
  cases hf with
  | false => simp [c_haltsave]
  | true =>
      rcases hsp : s.pending with _ | ⟨p, ps⟩
      · rcases h with h | h
        · exact absurd hsp h
        · obtain ⟨e, he, hst⟩ := h
          have hany : s.jobs.any (fun e => e.2.status == JobStatus.IN_WORK) = true :=
            List.any_eq_true.mpr ⟨e, he, by simp [hst]⟩
          simp [c_haltsave, hsp, hany]
      · simp [c_haltsave, hsp]

/-- Witness for C5: one ingested job pending, haltsave with a filename
and a writable file is still rejected and changes nothing. -/
theorem c5_haltsave_guard_witness :
    ((add_file initServer ["sleep 1"]).pending ≠ [] ∨
      ∃ e ∈ (add_file initServer ["sleep 1"]).jobs, e.2.status = JobStatus.IN_WORK) ∧
    ((c_haltsave true true (add_file initServer ["sleep 1"])).1.isSome = true ∧
      (c_haltsave true true (add_file initServer ["sleep 1"])).2.1 = none ∧
      (c_haltsave true true (add_file initServer ["sleep 1"])).2.2 =
        add_file initServer ["sleep 1"]) :=
  ⟨Or.inl (by decide), c5_haltsave_guard _ true true (Or.inl (by decide))⟩

theorem jlookup_qhashSetStatus (l : List (Nat × JobRecord)) (k : Nat) (st : JobStatus) :
    (jlookup (qhashSetStatus l k st) k).map JobRecord.status = some st := by
  induction l with
  | nil => simp [qhashSetStatus, jlookup]
  | cons a rest ih =>
      by_cases h : a.1 = k
      · simp [qhashSetStatus, h, jlookup]
      · simp [qhashSetStatus, h, jlookup, ih]

/-- Claim C6: when the transport of a session holding an assignment
disconnects, the session synthesizes exactly one failure for the current
id with stdout Connection closed and empty stderr; the job status
becomes Failed, the id is appended to the failed sequence once, and the
session leaves the worker set. -/
theorem c6_disconnect_synthesized_failure (s : ServerState) (wid : Nat) (w : WorkerS)
    (a : JobAssignment) (hw : findWorker s.workers wid = some w)
    (ha : w.assignment = some a) :
    worker_on_conn_closed w = [⟨a.id, "Connection closed", ""⟩] ∧
    (on_conn_closed_step s wid).failed = s.failed ++ [a.id] ∧
    (jlookup (on_conn_closed_step s wid).jobs a.id).map JobRecord.status =
      some JobStatus.FAILED ∧
    (∀ w2 ∈ (on_conn_closed_step s wid).workers, w2.wid ≠ wid) := by
  refine ⟨by simp [worker_on_conn_closed, ha], ?_, ?_, ?_⟩
  · simp only [on_conn_closed_step, hw, ha]
    simp [server_on_worker_failed]
  · simp only [on_conn_closed_step, hw, ha]
    simp only [server_on_worker_failed]
    exact jlookup_qhashSetStatus _ _ _
  · intro w2 hmem
    simp only [on_conn_closed_step, hw, ha] at hmem
    have h2 := (List.mem_filter.mp hmem).2
    simpa using h2

/-- Witness for C6 at a concrete disconnecting session. -/
theorem c6_disconnect_witness :
    findWorker c6S.workers 0 = some ⟨0, some ⟨7, "cmd"⟩⟩ ∧
    (WorkerS.mk 0 (some ⟨7, "cmd"⟩)).assignment = some ⟨7, "cmd"⟩ ∧
    (worker_on_conn_closed ⟨0, some ⟨7, "cmd"⟩⟩ = [⟨7, "Connection closed", ""⟩] ∧
      (on_conn_closed_step c6S 0).failed = c6S.failed ++ [7] ∧
      (jlookup (on_conn_closed_step c6S 0).jobs 7).map JobRecord.status =
        some JobStatus.FAILED ∧
      (∀ w2 ∈ (on_conn_closed_step c6S 0).workers, w2.wid ≠ 0)) :=
  ⟨by decide, rfl,
    c6_disconnect_synthesized_failure c6S 0 ⟨0, some ⟨7, "cmd"⟩⟩ ⟨7, "cmd"⟩ (by decide) rfl⟩

/-! ### FIFO discipline of the pending queue -/

theorem assign_pendInv (s s2 : ServerState) (wid : Nat)
    (h : assign_work_to s wid = some s2) (hi : pendInv s) : pendInv s2 := by
  unfold assign_work_to at h
  split at h
  · injection h with h2
    subst h2
    exact hi
  · split at h
    · injection h with h2
      subst h2
      exact hi
    · rename_i w hw next rest hpend
      split at h
      · injection h with h2
        subst h2
        exact hi
      · split at h
        · exact Option.noConfusion h
        · injection h with h2
          subst h2
          unfold pendInv at hi ⊢
          dsimp only
          rw [hi, hpend]
          simp [List.append_assoc]

theorem applyEmit_pendInv (s s2 : ServerState) (wid : Nat) (e : WorkerEmit)
    (h : applyEmit s wid e = some s2) (hi : pendInv s) : pendInv s2 := by
  cases e with
  | emitSuccess m =>
      injection h with h2
      subst h2
      exact hi
  | emitFailed m =>
      injection h with h2
      subst h2
      exact hi
  | wantWork => exact assign_pendInv _ _ _ h hi
  | logProtocol =>
      injection h with h2
      subst h2
      exact hi

theorem applyEmits_pendInv (es : List WorkerEmit) : ∀ (s s2 : ServerState) (wid : Nat),
    applyEmits s wid es = some s2 → pendInv s → pendInv s2 := by
  induction es with
  | nil =>
      intro s s2 wid h hi
      injection h with h2
      subst h2
      exact hi
  | cons e rest ih =>
      intro s s2 wid h hi
      cases he : applyEmit s wid e with
      | none =>
          simp only [applyEmits, he] at h
          exact Option.noConfusion h
      | some s3 =>
          simp only [applyEmits, he] at h
          exact ih s3 s2 wid h (applyEmit_pendInv s s3 wid e he hi)

theorem add_file_pendInv (lines : List String) : ∀ s : ServerState,
    pendInv s → pendInv (add_file s lines) := by
  induction lines with
  | nil => intro s hi; exact hi
  | cons l ls ih =>
      intro s hi
      refine ih _ ?_
      unfold pendInv at hi ⊢
      dsimp only
      rw [hi]
      simp [List.append_assoc]

theorem c_haltsave_state (hf co : Bool) (s : ServerState) :
    (c_haltsave hf co s).2.2 = s := by
  unfold c_haltsave
  split_ifs <;> rfl

theorem c_restore_pendInv (s s2 : ServerState) (entries : List (Nat × JobRecord))
    (h : c_restore s entries = some s2) (hi : pendInv s) : pendInv s2 := by
  unfold c_restore at h
  split at h
  · exact Option.noConfusion h
  · injection h with h2
    subst h2
    unfold pendInv at hi ⊢
    unfold enqueue
    dsimp only
    rw [hi]
    simp [List.append_assoc]

theorem conn_closed_pendInv (s : ServerState) (wid : Nat) (hi : pendInv s) :
    pendInv (on_conn_closed_step s wid) := by
  unfold on_conn_closed_step
  split
  · exact hi
  · rename_i w hw
    obtain ⟨wwid, wassign⟩ := w
    cases wassign <;> exact hi

theorem step_pendInv (s s2 : ServerState) (op : ServerOp)
    (hop : op ≠ ServerOp.opClearPending) (h : step s op = some s2) (hi : pendInv s) :
    pendInv s2 := by
  cases op with
  | opConnect => exact assign_pendInv _ _ _ h hi
  | opWantWork wid => exact assign_pendInv _ _ _ h hi
  | opWorkerMsg wid msg =>
      simp only [step] at h
      cases hw : findWorker s.workers wid with
      | none =>
          simp only [hw] at h
          injection h with h2
          subst h2
          exact hi
      | some w =>
          simp only [hw] at h
          cases hwd : worker_on_data w msg with
          | none =>
              simp only [hwd] at h
              exact Option.noConfusion h
          | some pr =>
              obtain ⟨w2, emits⟩ := pr
              simp only [hwd] at h
              exact applyEmits_pendInv emits _ _ _ h hi
  | opConnClosed wid =>
      injection h with h2
      subst h2
      exact conn_closed_pendInv s wid hi
  | opAddFile lines =>
      injection h with h2
      subst h2
      exact add_file_pendInv lines s hi
  | opClearPending => exact absurd rfl hop
  | opHaltsave hf co =>
      injection h with h2
      subst h2
      rw [c_haltsave_state]
      exact hi
  | opRestore entries => exact c_restore_pendInv _ _ _ h hi

theorem run_pendInv (ops : List ServerOp) : ∀ (s s2 : ServerState),
    run s ops = some s2 → (∀ op ∈ ops, op ≠ ServerOp.opClearPending) →
    pendInv s → pendInv s2 := by
  induction ops with
  | nil =>
      intro s s2 h _ hi
      injection h with h2
      subst h2
      exact hi
  | cons op rest ih =>
      intro s s2 h hnc hi
      cases hst : step s op with
      | none =>
          simp only [run, hst] at h
          exact Option.noConfusion h
      | some s3 =>
          simp only [run, hst] at h
          exact ih s3 s2 h (fun o ho => hnc o (List.mem_cons_of_mem op ho))
            (step_pendInv s s3 op (hnc op (List.mem_cons_self op rest)) hst hi)

/-- Counterexample to claim C3 as stated over all executions: after
clearing the pending queue between two ingestions, the connecting worker
dequeues the second id, and the dequeue sequence is not an initial
segment of the enqueue sequence. -/
theorem c3_clear_breaks_dequeue_order :
    (run initServer c3ops).map (fun s => (s.deq_hist, s.enq_hist)) = some ([1], [0, 1]) ∧
    ¬ isPrefixOfL [1] [0, 1] := by
  constructor
  · decide
  · rintro ⟨t, ht⟩
    simp [List.cons_append] at ht

/-- Claim C3 amended: in every execution in which the operator never
issues clear pending, the sequence of ids dequeued by assign_work_to is
an initial segment of the sequence of ids enqueued into pending, so
assignment order equals enqueue order. -/
theorem c3_fifo_dequeue_order_without_clear (ops : List ServerOp) (s : ServerState)
    (hrun : run initServer ops = some s)
    (hnc : ∀ op ∈ ops, op ≠ ServerOp.opClearPending) :
    isPrefixOfL s.deq_hist s.enq_hist := by
  have hp : pendInv s := run_pendInv ops initServer s hrun hnc rfl
  exact ⟨s.pending, hp.symm⟩

/-- Witness for the amended C3 on the clear-free trace. -/
theorem c3_fifo_witness :
    run initServer c3wOps = some c3wS ∧
    (∀ op ∈ c3wOps, op ≠ ServerOp.opClearPending) ∧
    isPrefixOfL c3wS.deq_hist c3wS.enq_hist :=
  ⟨by decide, by decide,
    c3_fifo_dequeue_order_without_clear c3wOps c3wS (by decide) (by decide)⟩

/-! ### Round trip of the wire codec -/

theorem hexDigitVal_hexChar : ∀ d, d < 16 → hexDigitVal (hexChar d) = some d := by decide

theorem hexChar_ne_lbrace : ∀ d, d < 16 → hexChar d ≠ lbraceC := by decide

theorem readHex_hexListC (k : Nat) : ∀ (acc n : Nat) (rest : List Char),
    readHex k acc (hexListC k n ++ rest) = some (acc * 16 ^ k + n % 16 ^ k, rest) := by
  induction k with
  | zero =>
      intro acc n rest
      simp [readHex, hexListC, Nat.mod_one]
  | succ k ih =>
      intro acc n rest
      have hd : n / 16 ^ k % 16 < 16 := Nat.mod_lt _ (by norm_num)
      have h1 : hexDigitVal (hexChar (n / 16 ^ k % 16)) = some (n / 16 ^ k % 16) :=
        hexDigitVal_hexChar _ hd
      have hmod : n % 16 ^ (k + 1) = n % 16 ^ k + 16 ^ k * (n / 16 ^ k % 16) := by
        rw [pow_succ]
        exact Nat.mod_mul
      simp only [hexListC, List.cons_append, readHex, h1, List.append_eq]
      rw [ih (acc * 16 + n / 16 ^ k % 16) n rest, hmod, pow_succ]
      congr 2
      ring

theorem readHex_hexListC_nil (k acc n : Nat) :
    readHex k acc (hexListC k n) = some (acc * 16 ^ k + n % 16 ^ k, []) := by
  have h2 := readHex_hexListC k acc n []
  simpa using h2

theorem acc_step (n j k : Nat) :
    n / 16 ^ (j + k) * 16 ^ k + n / 16 ^ j % 16 ^ k = n / 16 ^ j := by
  conv_rhs => rw [← Nat.div_add_mod (n / 16 ^ j) (16 ^ k)]
  rw [Nat.div_div_eq_div_mul, ← pow_add]
  ring

theorem parseUuidDashed_uuidDashedChars (n : Nat) (h : n < 16 ^ 32) :
    parseUuidDashed (uuidDashedChars n) = some n := by
  have h8 : n / 16 ^ 24 < 16 ^ 8 := by
    rw [Nat.div_lt_iff_lt_mul (by norm_num : (0:Nat) < 16 ^ 24)]
    calc n < 16 ^ 32 := h
      _ = 16 ^ 8 * 16 ^ 24 := by norm_num
  have s0 : 0 * 16 ^ 8 + n / 16 ^ 24 % 16 ^ 8 = n / 16 ^ 24 := by
    rw [Nat.zero_mul, Nat.zero_add, Nat.mod_eq_of_lt h8]
  have s1 : n / 16 ^ 24 * 16 ^ 4 + n / 16 ^ 20 % 16 ^ 4 = n / 16 ^ 20 := by
    have e : (20:Nat) + 4 = 24 := rfl
    have h2 := acc_step n 20 4
    rw [e] at h2
    exact h2
  have s2 : n / 16 ^ 20 * 16 ^ 4 + n / 16 ^ 16 % 16 ^ 4 = n / 16 ^ 16 := by
    have e : (16:Nat) + 4 = 20 := rfl
    have h2 := acc_step n 16 4
    rw [e] at h2
    exact h2
  have s3 : n / 16 ^ 16 * 16 ^ 4 + n / 16 ^ 12 % 16 ^ 4 = n / 16 ^ 12 := by
    have e : (12:Nat) + 4 = 16 := rfl
    have h2 := acc_step n 12 4
    rw [e] at h2
    exact h2
  have s4 : n / 16 ^ 12 * 16 ^ 12 + n % 16 ^ 12 = n := by
    calc n / 16 ^ 12 * 16 ^ 12 + n % 16 ^ 12
        = 16 ^ 12 * (n / 16 ^ 12) + n % 16 ^ 12 := by ring
      _ = n := Nat.div_add_mod n (16 ^ 12)
  unfold parseUuidDashed uuidDashedChars
  simp only [readHex_hexListC, readHex_hexListC_nil, Option.bind, expectDash,
    eq_self_iff_true, if_true]
  rw [s0, s1, s2, s3, s4]

theorem uuid_roundtrip (n : Nat) (h : n < 2 ^ 128) : uuidFromString (uuidToString n) = n := by
  have h16 : n < 16 ^ 32 := by
    have e : (16:Nat) ^ 32 = 2 ^ 128 := by norm_num
    rw [e]
    exact h
  unfold uuidToString uuidFromString
  have hdata : (String.mk (lbraceC :: uuidDashedChars n ++ [rbraceC])).data
      = lbraceC :: uuidDashedChars n ++ [rbraceC] := rfl
  rw [hdata]
  have hstrip : stripBraces (lbraceC :: uuidDashedChars n ++ [rbraceC])
      = some (uuidDashedChars n) := by
    simp [stripBraces, List.getLast?_concat, List.dropLast_concat]
  rw [hstrip]
  simp only [Option.bind]
  rw [parseUuidDashed_uuidDashedChars n h16]
  rfl

theorem uuid_parse_unbraced (n : Nat) (h : n < 2 ^ 128) :
    uuidFromString (String.mk (uuidDashedChars n)) = n := by
  have h16 : n < 16 ^ 32 := by
    have e : (16:Nat) ^ 32 = 2 ^ 128 := by norm_num
    rw [e]
    exact h
  have hcons : uuidDashedChars n
      = hexChar (n / 16 ^ 24 / 16 ^ 7 % 16) ::
          (hexListC 7 (n / 16 ^ 24) ++
            (dashC :: (hexListC 4 (n / 16 ^ 20) ++
              (dashC :: (hexListC 4 (n / 16 ^ 16) ++
                (dashC :: (hexListC 4 (n / 16 ^ 12) ++
                  (dashC :: hexListC 12 n)))))))) := rfl
  have hd : n / 16 ^ 24 / 16 ^ 7 % 16 < 16 := Nat.mod_lt _ (by norm_num)
  have hne := hexChar_ne_lbrace _ hd
  have hstrip : stripBraces (uuidDashedChars n) = some (uuidDashedChars n) := by
    conv_lhs => rw [hcons]
    simp only [stripBraces, if_neg hne]
    exact congrArg some hcons.symm
  unfold uuidFromString
  have hdata : (String.mk (uuidDashedChars n)).data = uuidDashedChars n := rfl
  rw [hdata, hstrip]
  simp only [Option.bind]
  rw [parseUuidDashed_uuidDashedChars n h16]
  rfl

/-- Claim C4: decoding the encoding of each of the three wire variants
yields the message back, the 128-bit id rendered with braces by the
encoder surviving the trip, the output buffers preserved, and the
decoder also accepting the id without braces. -/
theorem c4_message_roundtrip (ma : MessageAssignment) (ms : MessageSuccess)
    (mf : MessageFailed) (ha : ma.id < 2 ^ 128) (hs : ms.completed < 2 ^ 128)
    (hf2 : mf.failed < 2 ^ 128) :
    decode_message (encode_message_assignment ma) = MessageType.assignment ma ∧
    decode_message (encode_message_success ms) = MessageType.success ms ∧
    decode_message (encode_message_failed mf) = MessageType.failed mf ∧
    uuidFromString (String.mk (uuidDashedChars ma.id)) = ma.id := by
  obtain ⟨id, cmd⟩ := ma
  obtain ⟨cid, so, se⟩ := ms
  obtain ⟨fid, fo, fe⟩ := mf
  refine ⟨?_, ?_, ?_, uuid_parse_unbraced _ ha⟩
  · have hred : decode_message (encode_message_assignment ⟨id, cmd⟩) =
        MessageType.assignment ⟨uuidFromString (uuidToString id), cmd⟩ := rfl
    rw [hred, uuid_roundtrip id ha]
  · have hred : decode_message (encode_message_success ⟨cid, so, se⟩) =
        MessageType.success ⟨uuidFromString (uuidToString cid), so, se⟩ := rfl
    rw [hred, uuid_roundtrip cid hs]
  · have hred : decode_message (encode_message_failed ⟨fid, fo, fe⟩) =
        MessageType.failed ⟨uuidFromString (uuidToString fid), fo, fe⟩ := rfl
    rw [hred, uuid_roundtrip fid hf2]

/-- Witness for C4 at concrete messages. -/
theorem c4_message_roundtrip_witness :
    ((5:Nat) < 2 ^ 128 ∧ (6:Nat) < 2 ^ 128 ∧ (7:Nat) < 2 ^ 128) ∧
    (decode_message (encode_message_assignment ⟨5, "echo hello"⟩) =
        MessageType.assignment ⟨5, "echo hello"⟩ ∧
      decode_message (encode_message_success ⟨6, "out", "err"⟩) =
        MessageType.success ⟨6, "out", "err"⟩ ∧
      decode_message (encode_message_failed ⟨7, "out", "err"⟩) =
        MessageType.failed ⟨7, "out", "err"⟩ ∧
      uuidFromString (String.mk (uuidDashedChars 5)) = 5) :=
  ⟨⟨by norm_num, by norm_num, by norm_num⟩,
    c4_message_roundtrip ⟨5, "echo hello"⟩ ⟨6, "out", "err"⟩ ⟨7, "out", "err"⟩
      (by norm_num) (by norm_num) (by norm_num)⟩

end JobParbreak
